import Mathlib

/-!
Verification of the receive-kit attestation verification pipeline.

The development shallowly embeds the TypeScript sources:
  * `utils.ts` (`sortObject`, `isNullOrWhiteSpace`),
  * `validation.ts` (`validateRequestFormat`, `validateBasicOffChainProperties`,
    `validateOnChainProperties`),
  * `index.ts` (the `POST /api/receive` orchestrator).

JSON / JavaScript runtime values are modelled by the inductive `JsVal`.
External cryptographic and RPC primitives (`HashingLogic.recoverHashSigner`
composed with `toBuffer`, `keccak256`, `JSON.stringify`,
`shareKitUtil.verifyOffChainDataIntegrity`, `getDecodedTxEventLogs`) are
function parameters: the code under verification only composes their outputs.
-/

/-- A JavaScript/JSON runtime value: string, number, boolean, null, array, or
object.  Object fields are kept as an insertion-ordered association list; a
value corresponding to a real JavaScript object never repeats a key. -/
inductive JsVal where
  | vStr (s : String)
  | vNum (n : Int)
  | vBool (b : Bool)
  | vNull
  | vArr (elems : List JsVal)
  | vObj (fields : List (String × JsVal))

/-- The guard `typeof object[key] === "object" && !(object[key] instanceof Array)`
from `sortObject`.  In JavaScript `typeof null === "object"` and `null` is not
an `Array` instance, so `null` passes the guard; arrays and primitives fail it. -/
def isObjNotArr : JsVal → Bool
  | .vObj _ => true
  | .vNull => true
  | _ => false

/-- Lexicographic comparison of character lists, mirroring the JavaScript `<`
relational operator on strings that `_.sortBy(keys, key => key)` sorts by
(code-unit order; identical to code-point order on the basic plane). -/
def charListLe : List Char → List Char → Bool
  | [], _ => true
  | _ :: _, [] => false
  | a :: as, b :: bs =>
    if a < b then true else if b < a then false else charListLe as bs

/-- Order on object entries by key, used to sort the key list like
`_.sortBy(keys, key => key)` does. -/
def keyLe (a b : String × JsVal) : Prop := charListLe a.1.data b.1.data = true

instance : DecidableRel keyLe := fun a b =>
  inferInstanceAs (Decidable (charListLe a.1.data b.1.data = true))

/-- Entries enumerated for a string receiver: `_.keys` on a JavaScript string
yields the decimal index keys, and indexing a string yields one-character
strings, which fail the object guard and are copied verbatim. -/
def strFields : Nat → List Char → List (String × JsVal)
  | _, [] => []
  | i, c :: rest => (toString i, JsVal.vStr (String.singleton c)) :: strFields (i + 1) rest

mutual

/-- Translation of `sortObject` from `utils.ts`.  `_.keys` enumerates the own
enumerable keys (none for numbers, booleans and `null`; decimal index keys for
arrays and strings; the field keys for objects), `_.sortBy(keys, key => key)`
sorts them lexicographically, and each value is copied verbatim unless it
passes the `typeof === "object" && !(instanceof Array)` guard, in which case
`sortObject` recurses into it.  The result is always a fresh object. -/
def sortObject : JsVal → JsVal
  | .vObj kvs => .vObj (List.insertionSort keyLe (mapFields kvs))
  | .vArr xs => .vObj (List.insertionSort keyLe (arrFields 0 xs))
  | .vStr s => .vObj (List.insertionSort keyLe (strFields 0 s.data))
  | _ => .vObj []
termination_by structural v => v

/-- Per-entry treatment of object fields inside `sortObject`: recurse on values
passing the object-not-array guard, copy all other values verbatim. -/
def mapFields : List (String × JsVal) → List (String × JsVal)
  | [] => []
  | (k, x) :: rest =>
    (k, if isObjNotArr x then sortObject x else x) :: mapFields rest
termination_by structural l => l

/-- Entries enumerated for an array receiver inside `sortObject`: decimal index
keys with the same per-value guard as object fields. -/
def arrFields : Nat → List JsVal → List (String × JsVal)
  | _, [] => []
  | i, x :: rest =>
    (toString i, if isObjNotArr x then sortObject x else x) :: arrFields (i + 1) rest
termination_by structural _ l => l

end

/-- The value stored by `sortObject` for an individual field value. -/
def sortEntryVal (x : JsVal) : JsVal := if isObjNotArr x then sortObject x else x

/-- Adjacent-pairs check that a key list is in ascending lexicographic order. -/
def keysAscending : List String → Bool
  | [] => true
  | [_] => true
  | a :: b :: rest => charListLe a.data b.data && keysAscending (b :: rest)

mutual

/-- Key-sortedness of every mapping reachable from the root through chains of
mapping values only; arrays are not descended into.  This is the sortedness
guarantee `sortObject` actually establishes. -/
def objChainSorted : JsVal → Bool
  | .vObj kvs => keysAscending (kvs.map Prod.fst) && objChainSortedFields kvs
  | _ => true
termination_by structural v => v

/-- Field-wise helper for `objChainSorted`. -/
def objChainSortedFields : List (String × JsVal) → Bool
  | [] => true
  | (_, x) :: rest => objChainSorted x && objChainSortedFields rest
termination_by structural l => l

end

mutual

/-- Key-sortedness of every mapping at every nesting level, descending through
arrays as well: the property the specification ascribes to the canonicalizer. -/
def deepSorted : JsVal → Bool
  | .vObj kvs => keysAscending (kvs.map Prod.fst) && deepSortedFields kvs
  | .vArr xs => deepSortedList xs
  | _ => true
termination_by structural v => v

/-- Field-wise helper for `deepSorted`. -/
def deepSortedFields : List (String × JsVal) → Bool
  | [] => true
  | (_, x) :: rest => deepSorted x && deepSortedFields rest
termination_by structural l => l

/-- Element-wise helper for `deepSorted`. -/
def deepSortedList : List JsVal → Bool
  | [] => true
  | x :: rest => deepSorted x && deepSortedList rest
termination_by structural l => l

end

/-- A `{ key, message }` validation error, as produced by all three validators. -/
structure ValidationError where
  key : String
  message : String
deriving DecidableEq, Repr

/-- JavaScript property access `value[key]`; `none` models `undefined`.
The properties the code reads are plain named fields, which are `undefined`
on non-object receivers. -/
def jsProp : JsVal → String → Option JsVal
  | .vObj kvs, k => (kvs.find? (fun p => p.1 == k)).map Prod.snd
  | _, _ => none

/-- Translation of `isNullOrWhiteSpace` from `utils.ts`:
`typeof value !== "string" || value.trim() === ""`.  A string trims to the
empty string exactly when every character is whitespace. -/
def isNullOrWhiteSpace : Option JsVal → Bool
  | some (.vStr s) => s.data.all Char.isWhitespace
  | _ => true

/-- The check `req.body.data instanceof Array && req.body.data.length` whose
negation guards the `data` format error. -/
def isNonEmptyArray : Option JsVal → Bool
  | some (.vArr xs) => !(xs.length == 0)
  | _ => false

/-- Message of the format error for the string-typed fields. -/
def nonWhitespaceMessage (f : String) : String :=
  "Request body requires a non-whitespace \x27" ++ f ++ "\x27 property of type string."

/-- Message of the format error for the `data` field. -/
def dataFormatMessage : String :=
  "Request body requires a non-empty \x27data\x27 property of type Array."

/-- Translation of `validateRequestFormat` from `validation.ts`: five
independent checks, each pushing one keyed error, in source order. -/
def validateRequestFormat (body : JsVal) : List ValidationError :=
  (if isNullOrWhiteSpace (jsProp body "token") then
    [⟨"token", nonWhitespaceMessage "token"⟩] else [])
  ++ (if isNullOrWhiteSpace (jsProp body "subject") then
    [⟨"subject", nonWhitespaceMessage "subject"⟩] else [])
  ++ (if !(isNonEmptyArray (jsProp body "data")) then
    [⟨"data", dataFormatMessage⟩] else [])
  ++ (if isNullOrWhiteSpace (jsProp body "packedData") then
    [⟨"packedData", nonWhitespaceMessage "packedData"⟩] else [])
  ++ (if isNullOrWhiteSpace (jsProp body "signature") then
    [⟨"signature", nonWhitespaceMessage "signature"⟩] else [])

/-- The five required fields, in the order the shape validator checks them. -/
def requiredFields : List String := ["token", "subject", "data", "packedData", "signature"]

/-- Per-field failure condition of the shape validator, as the specification
states it: `data` fails exactly when it is not an array with at least one
element; the other four fail exactly when not a string or empty after
trimming whitespace. -/
def fieldFails (body : JsVal) (f : String) : Bool :=
  if f == "data" then !(isNonEmptyArray (jsProp body "data"))
  else isNullOrWhiteSpace (jsProp body f)

/-- The `ResponseData` fields read by the off-chain validator, after the typed
cast in the handler. -/
structure ResponseData where
  token : String
  subject : String
  data : List JsVal
  packedData : String
  signature : String

/-- Message of the off-chain subject mismatch error, with the shared and the
recovered address interpolated. -/
def subjectMismatchMessage (shared recovered : String) : String :=
  "The recovered subject address based on the \x27packedData\x27 and \x27signature\x27" ++
  " does not match the one that was shared." ++
  "\nShared subject address: \x27" ++ shared ++ "\x27" ++
  "\nRecovered subject address: \x27" ++ recovered ++ "\x27"

/-- Message of the off-chain packed-data mismatch error, with the shared and
the recomputed hash interpolated. -/
def packedDataMismatchMessage (shared recovered : String) : String :=
  "The recovered packed data hash computed by running \x27keccak256\x27 on an object" ++
  " containing the shared \x27data\x27 and \x27token\x27 does not match the \x27packedData\x27" ++
  " that was shared." ++
  "\nShared packed data: \x27" ++ shared ++ "\x27" ++
  "\nRecovered packed data: \x27" ++ recovered ++ "\x27"

/-- The object literal `{ data: shareKitResData.data, token: shareKitResData.token }`
passed to `JSON.stringify` before hashing. -/
def packedInput (d : ResponseData) : JsVal :=
  .vObj [("data", .vArr d.data), ("token", .vStr d.token)]

/-- Translation of `validateBasicOffChainProperties` from `validation.ts`.
`recoverHashSigner pd sig` stands for
`HashingLogic.recoverHashSigner(toBuffer(pd), sig)` and `keccak256`/`stringify`
for the external `keccak256` and `JSON.stringify` primitives.  Both checks are
performed unconditionally, each pushing one keyed error on mismatch. -/
def validateBasicOffChainProperties
    (recoverHashSigner : String → String → String)
    (keccak256 : String → String)
    (stringify : JsVal → String)
    (shareKitResData : ResponseData) : List ValidationError :=
  let signerEthAddress :=
    recoverHashSigner shareKitResData.packedData shareKitResData.signature
  let errors :=
    if shareKitResData.subject ≠ signerEthAddress then
      [ValidationError.mk "subject"
        (subjectMismatchMessage shareKitResData.subject signerEthAddress)]
    else []
  let recoveredPackedData :=
    "0x" ++ keccak256 (stringify (packedInput shareKitResData))
  if shareKitResData.packedData ≠ recoveredPackedData then
    errors ++ [ValidationError.mk "packedData"
      (packedDataMismatchMessage shareKitResData.packedData recoveredPackedData)]
  else errors

/-- Modelled from the spec: `TDecodedLog` comes from `txUtils.ts`, which is not
among the sources.  Per the design document a decoded log event has a `name`
(event type) and a mapping from field name to decoded value. -/
structure TDecodedLog where
  name : String
  values : List (String × String)
deriving DecidableEq, Repr

/-- Modelled from the spec: `getDecodedLogValueByName` from `txUtils.ts` is not
among the sources; it looks the named field up in a decoded log event, `none`
standing for `undefined` when the field is absent. -/
def getDecodedLogValueByName (l : TDecodedLog) (n : String) : Option String :=
  (l.values.find? (fun p => p.1 == n)).map Prod.snd

/-- The `IVerifiedData` fields read by the on-chain validator and the handler. -/
structure IVerifiedData where
  layer2Hash : String
  attester : String
  tx : String
deriving DecidableEq, Repr

/-- One data node paired with the decoded event logs of its transaction. -/
structure TDecodedLogsAndData where
  shareData : IVerifiedData
  logs : List TDecodedLog
deriving DecidableEq, Repr

/-- JavaScript template interpolation of a possibly-undefined value. -/
def optDisplay : Option String → String
  | some s => s
  | none => "undefined"

/-- Message of the missing-event error, naming the hash that was not found. -/
def traitAttestedMissingMessage (h : String) : String :=
  "Unable to find \x27TraitAttested\x27 event logs with a" ++
  " \x27dataHash\x27 of \x27" ++ h ++ "\x27."

/-- Message of the on-chain subject mismatch error. -/
def onChainSubjectMessage (shared : String) (onChain : Option String) : String :=
  "The on chain subject address does not match what was shared." ++
  "\nShared subject address: \x27" ++ shared ++ "\x27" ++
  "\nOn chain subject address: \x27" ++ optDisplay onChain ++ "\x27"

/-- Message of the on-chain attester mismatch error. -/
def onChainAttesterMessage (shared : String) (onChain : Option String) : String :=
  "The on chain attester address does not match what was shared." ++
  "\nShared attester address: \x27" ++ shared ++ "\x27" ++
  "\nOn chain attester address: \x27" ++ optDisplay onChain ++ "\x27"

/-- The `find` predicate: an event named `TraitAttested` whose decoded
`dataHash` field equals the node's `layer2Hash`. -/
def traitAttestedMatch (layer2Hash : String) (l : TDecodedLog) : Bool :=
  l.name == "TraitAttested" &&
    getDecodedLogValueByName l "dataHash" == some layer2Hash

/-- Body of the `forEach` in `validateOnChainProperties`, for one node: on a
failed match lookup push one `TraitAttested` error and return early; otherwise
compare the event's `subject` and `attester` fields independently. -/
def validateOnChainNode (subject : String) (dl : TDecodedLogsAndData) : List ValidationError :=
  match dl.logs.find? (traitAttestedMatch dl.shareData.layer2Hash) with
  | none => [⟨"TraitAttested", traitAttestedMissingMessage dl.shareData.layer2Hash⟩]
  | some log =>
    let onChainSubjectAddress := getDecodedLogValueByName log "subject"
    let e1 :=
      if some subject ≠ onChainSubjectAddress then
        [ValidationError.mk "subject" (onChainSubjectMessage subject onChainSubjectAddress)]
      else []
    let onChainAttesterAddress := getDecodedLogValueByName log "attester"
    let e2 :=
      if some dl.shareData.attester ≠ onChainAttesterAddress then
        [ValidationError.mk "attester"
          (onChainAttesterMessage dl.shareData.attester onChainAttesterAddress)]
      else []
    e1 ++ e2

/-- Translation of `validateOnChainProperties` from `validation.ts`: a
`forEach` pushing each node's errors into one shared array, i.e. a left fold
appending `validateOnChainNode` results in node order. -/
def validateOnChainProperties (subject : String)
    (decodedLogsAndData : List TDecodedLogsAndData) : List ValidationError :=
  decodedLogsAndData.foldl (fun errors dl => errors ++ validateOnChainNode subject dl) []

/-- Outcome of the `POST /api/receive` handler.  The four rejection
constructors are the `res.status(400).json({ errors })` responses of the four
stages; `accepted` is the `res.status(200).json({ success: true, token })`
response carrying `req.body.token`; `internalFailure` is the rejected
`Promise.all` path, which produces no validation response at all. -/
inductive Verdict where
  | formatRejected (errors : List ValidationError)
  | offChainRejected (errors : List ValidationError)
  | payloadRejected (results : List (Option JsVal × List ValidationError))
  | onChainRejected (errors : List ValidationError)
  | accepted (token : Option JsVal)
  | internalFailure

/-- Read a string field; after shape validation the string-typed fields are
strings, so the default is never exercised on validated claims. -/
def strOrEmpty : Option JsVal → String
  | some (.vStr s) => s
  | _ => ""

/-- The canonicalized data nodes:
`shareKitResData.data = shareKitResData.data.map(d => sortObject(d))` applied
to the `data` field of `sortObject(req.body)`.  After shape validation `data`
is an array, so the empty default is never exercised then. -/
def canonicalData (body : JsVal) : List JsVal :=
  (match jsProp (sortObject body) "data" with
   | some (.vArr xs) => xs
   | _ => []).map sortObject

/-- The `ResponseData` view of `sortObject(req.body)` with canonicalized data
nodes, as the handler passes it to the validators. -/
def canonicalResponse (body : JsVal) : ResponseData :=
  { token := strOrEmpty (jsProp (sortObject body) "token")
    subject := strOrEmpty (jsProp (sortObject body) "subject")
    data := canonicalData body
    packedData := strOrEmpty (jsProp (sortObject body) "packedData")
    signature := strOrEmpty (jsProp (sortObject body) "signature") }

/-- The off-chain integrity stage as the handler invokes it. -/
def offChainStage (recoverHashSigner : String → String → String)
    (keccak256 : String → String) (stringify : JsVal → String)
    (body : JsVal) : List ValidationError :=
  validateBasicOffChainProperties recoverHashSigner keccak256 stringify
    (canonicalResponse body)

/-- The per-node off-chain payload stage:
`data.map(d => ({ layer2Hash: d.layer2Hash, errors: verifyOffChainDataIntegrity(d) }))`. -/
def payloadStage (verifyOffChainDataIntegrity : JsVal → List ValidationError)
    (body : JsVal) : List (Option JsVal × List ValidationError) :=
  (canonicalData body).map
    (fun d => (jsProp d "layer2Hash", verifyOffChainDataIntegrity d))

/-- The typed view of one data node taken by the on-chain validator. -/
def toVerifiedData (d : JsVal) : IVerifiedData :=
  { layer2Hash := strOrEmpty (jsProp d "layer2Hash")
    attester := strOrEmpty (jsProp d "attester")
    tx := strOrEmpty (jsProp d "tx") }

/-- The `Promise.all` fan-out pairing each node with
`getDecodedTxEventLogs(provider, shareData.tx)`: every lookup is issued, one
failure rejects the whole join.  Results are listed here in node order; the
completion-order independence of the validator is a separate theorem. -/
def collectLogs (getDecodedTxEventLogs : String → Except Unit (List TDecodedLog)) :
    List JsVal → Except Unit (List TDecodedLogsAndData)
  | [] => .ok []
  | d :: rest =>
    match getDecodedTxEventLogs (strOrEmpty (jsProp d "tx")),
        collectLogs getDecodedTxEventLogs rest with
    | .ok logs, .ok dls => .ok ({ shareData := toVerifiedData d, logs := logs } :: dls)
    | _, _ => .error ()

/-- Translation of the `POST /api/receive` handler from `index.ts`: shape
validation, canonicalization, off-chain integrity, per-node payload check,
log fan-out, on-chain cross-validation, each stage returning early with its
complete error list. -/
def receiveHandler (recoverHashSigner : String → String → String)
    (keccak256 : String → String) (stringify : JsVal → String)
    (verifyOffChainDataIntegrity : JsVal → List ValidationError)
    (getDecodedTxEventLogs : String → Except Unit (List TDecodedLog))
    (body : JsVal) : Verdict :=
  if validateRequestFormat body ≠ [] then
    .formatRejected (validateRequestFormat body)
  else if offChainStage recoverHashSigner keccak256 stringify body ≠ [] then
    .offChainRejected (offChainStage recoverHashSigner keccak256 stringify body)
  else if ¬ ((payloadStage verifyOffChainDataIntegrity body).all
      (fun p => p.2.length == 0)) then
    .payloadRejected (payloadStage verifyOffChainDataIntegrity body)
  else
    match collectLogs getDecodedTxEventLogs (canonicalData body) with
    | .error _ => .internalFailure
    | .ok dls =>
      if validateOnChainProperties (canonicalResponse body).subject dls ≠ [] then
        .onChainRejected (validateOnChainProperties (canonicalResponse body).subject dls)
      else
        .accepted (jsProp body "token")

/-- Concrete signature-recovery model for witnesses: the recovered address is
a function of the signed packed data, as with real ECDSA recovery. -/
def recoverStub (packedData : String) (_signature : String) : String :=
  "signer " ++ packedData

/-- Concrete hash model for witnesses. -/
def keccakStub (_input : String) : String := "aa"

/-- Concrete serialization model for witnesses. -/
def stringifyStub (_v : JsVal) : String := "serialized"

/-- Per-node payload check that always passes, for witnesses. -/
def noPayloadErrors (_d : JsVal) : List ValidationError := []

/-- One concrete data node for handler witnesses. -/
def witnessNode : JsVal :=
  .vObj [("attester", .vStr "A"), ("layer2Hash", .vStr "L"), ("tx", .vStr "T")]

/-- A concrete request body that passes every stage under the stub primitives. -/
def witnessBody : JsVal :=
  .vObj [("token", .vStr "t"), ("subject", .vStr "signer 0xaa"),
    ("data", .vArr [witnessNode]), ("packedData", .vStr "0xaa"),
    ("signature", .vStr "s")]

/-- A decoded event log matching `witnessNode` under subject `signer 0xaa`. -/
def witnessLog : TDecodedLog :=
  { name := "TraitAttested"
    values := [("dataHash", "L"), ("subject", "signer 0xaa"), ("attester", "A")] }

/-- Log lookup that succeeds with the matching event, for witnesses. -/
def logsOkStub (_tx : String) : Except Unit (List TDecodedLog) := .ok [witnessLog]

/-- Log lookup that fails, modelling a provider error, for witnesses. -/
def logsFailStub (_tx : String) : Except Unit (List TDecodedLog) := .error ()

/-- A claim that passes both off-chain checks under the stub primitives. -/
def validClaim : ResponseData :=
  { token := "t", subject := "signer 0xaa", data := [.vNull]
    packedData := "0xaa", signature := "s" }

/-- `validClaim` with one byte of `packedData` changed. -/
def mutatedClaim : ResponseData := { validClaim with packedData := "0xab" }

/-- A tree holding a mapping with unsorted keys inside an array, and a null
field value. -/
def nestedArrayTree : JsVal :=
  .vObj [("a", .vArr [.vObj [("b", .vNum 1), ("a", .vNum 2)]]), ("n", .vNull)]
theorem charListLe_total : ∀ as bs, charListLe as bs = true ∨ charListLe bs as = true := by
  intro as
  induction as with
  | nil => intro bs; left; rfl
  | cons a as ih =>
    intro bs
    cases bs with
    | nil => right; rfl
    | cons b bs =>
      by_cases hab : a < b
      · left; simp [charListLe, hab]
      · by_cases hba : b < a
        · right; simp [charListLe, hba, hab]
        · rcases ih bs with h | h
          · left; simp [charListLe, hab, hba, h]
          · right; simp [charListLe, hab, hba, h]

theorem charListLe_trans :
    ∀ as bs cs, charListLe as bs = true → charListLe bs cs = true →
      charListLe as cs = true := by
  intro as
  induction as with
  | nil => intro bs cs _ _; rfl
  | cons a as ih =>
    intro bs cs h1 h2
    cases bs with
    | nil => simp [charListLe] at h1
    | cons b bs =>
      cases cs with
      | nil => simp [charListLe] at h2
      | cons c cs =>
        simp only [charListLe] at h1 h2 ⊢
        rcases lt_trichotomy a b with hab | hab | hab
        · rcases lt_trichotomy b c with hbc | hbc | hbc
          · simp [lt_trans hab hbc]
          · subst hbc; simp [hab]
          · simp [lt_asymm hbc, hbc] at h2
        · subst hab
          simp only [lt_irrefl, if_false] at h1
          rcases lt_trichotomy a c with hac | hac | hac
          · simp [hac]
          · subst hac
            simp only [lt_irrefl, if_false] at h2 ⊢
            exact ih bs cs h1 h2
          · simp [lt_asymm hac, hac] at h2
        · simp [lt_asymm hab, hab] at h1

instance : IsTotal (String × JsVal) keyLe :=
  ⟨fun a b => charListLe_total a.1.data b.1.data⟩

instance : IsTrans (String × JsVal) keyLe :=
  ⟨fun _ _ _ h h' => charListLe_trans _ _ _ h h'⟩
theorem mapFields_eq_map (l : List (String × JsVal)) :
    mapFields l = l.map (fun p => (p.1, sortEntryVal p.2)) := by
  induction l with
  | nil => rfl
  | cons p rest ih => cases p with
    | mk k x => simp [mapFields, sortEntryVal, ih]

theorem arrFields_mem_val {p : String × JsVal} :
    ∀ (i : Nat) (xs : List JsVal), p ∈ arrFields i xs → ∃ x ∈ xs, p.2 = sortEntryVal x := by
  intro i xs
  induction xs generalizing i with
  | nil => intro h; simp [arrFields] at h
  | cons x rest ih =>
    intro h
    simp only [arrFields, List.mem_cons] at h
    rcases h with h | h
    · exact ⟨x, by simp, by simp [h, sortEntryVal]⟩
    · obtain ⟨y, hy, hv⟩ := ih (i + 1) h
      exact ⟨y, by simp [hy], hv⟩

theorem strFields_mem_val {p : String × JsVal} :
    ∀ (i : Nat) (cs : List Char), p ∈ strFields i cs → ∃ c, p.2 = JsVal.vStr (String.singleton c) := by
  intro i cs
  induction cs generalizing i with
  | nil => intro h; simp [strFields] at h
  | cons c rest ih =>
    intro h
    simp only [strFields, List.mem_cons] at h
    rcases h with h | h
    · exact ⟨c, by simp [h]⟩
    · exact ih (i + 1) h

theorem sortObject_isObj (x : JsVal) : isObjNotArr (sortObject x) = true := by
  cases x <;> simp [sortObject, isObjNotArr]

theorem sortEntryVal_fix_of_idem {x : JsVal}
    (h : sortObject (sortObject x) = sortObject x) :
    sortEntryVal (sortEntryVal x) = sortEntryVal x := by
  unfold sortEntryVal
  cases hx : isObjNotArr x
  · simp [hx]
  · simp only [if_pos rfl, if_true]
    rw [sortObject_isObj x, if_pos rfl, h]

theorem sortObject_vObj_of_fixed (E : List (String × JsVal))
    (hfix : ∀ p ∈ E, sortEntryVal p.2 = p.2) :
    sortObject (.vObj (List.insertionSort keyLe E)) = .vObj (List.insertionSort keyLe E) := by
  have hmem : ∀ p ∈ List.insertionSort keyLe E, sortEntryVal p.2 = p.2 := by
    intro p hp
    exact hfix p ((List.mem_insertionSort keyLe).1 hp)
  have h1 : mapFields (List.insertionSort keyLe E) = List.insertionSort keyLe E := by
    rw [mapFields_eq_map]
    have : ∀ p ∈ List.insertionSort keyLe E, (p.1, sortEntryVal p.2) = p := by
      intro p hp
      rw [hmem p hp]
    calc (List.insertionSort keyLe E).map (fun p => (p.1, sortEntryVal p.2))
        = (List.insertionSort keyLe E).map id := List.map_congr_left this
      _ = List.insertionSort keyLe E := List.map_id _
  have h2 : List.Sorted keyLe (List.insertionSort keyLe E) :=
    List.sorted_insertionSort keyLe E
  simp only [sortObject, h1, h2.insertionSort_eq]

theorem sizeOf_snd_lt_of_mem {q : String × JsVal} {kvs : List (String × JsVal)}
    (hq : q ∈ kvs) : sizeOf q.2 < sizeOf (JsVal.vObj kvs) := by
  have h1 := List.sizeOf_lt_of_mem hq
  cases q with
  | mk a b =>
    simp only [Prod.mk.sizeOf_spec] at h1
    simp only [JsVal.vObj.sizeOf_spec]
    omega

theorem sizeOf_elem_lt_of_mem {x : JsVal} {xs : List JsVal}
    (hx : x ∈ xs) : sizeOf x < sizeOf (JsVal.vArr xs) := by
  have h1 := List.sizeOf_lt_of_mem hx
  simp only [JsVal.vArr.sizeOf_spec]
  omega

theorem sortObject_idem_aux :
    ∀ n, ∀ v : JsVal, sizeOf v ≤ n → sortObject (sortObject v) = sortObject v := by
  intro n
  induction n with
  | zero =>
    intro v hv
    exact absurd hv (by cases v <;> simp)
  | succ n ih =>
    intro v hv
    cases v with
    | vObj kvs =>
      have hfix : ∀ p ∈ mapFields kvs, sortEntryVal p.2 = p.2 := by
        intro p hp
        rw [mapFields_eq_map] at hp
        obtain ⟨q, hq, rfl⟩ := List.mem_map.1 hp
        have hsz : sizeOf q.2 ≤ n := by
          have := sizeOf_snd_lt_of_mem hq
          omega
        exact sortEntryVal_fix_of_idem (ih q.2 hsz)
      simpa only [sortObject] using sortObject_vObj_of_fixed (mapFields kvs) hfix
    | vArr xs =>
      have hfix : ∀ p ∈ arrFields 0 xs, sortEntryVal p.2 = p.2 := by
        intro p hp
        obtain ⟨x, hx, hval⟩ := arrFields_mem_val 0 xs hp
        have hsz : sizeOf x ≤ n := by
          have := sizeOf_elem_lt_of_mem hx
          omega
        rw [hval]
        exact sortEntryVal_fix_of_idem (ih x hsz)
      simpa only [sortObject] using sortObject_vObj_of_fixed (arrFields 0 xs) hfix
    | vStr s =>
      have hfix : ∀ p ∈ strFields 0 s.data, sortEntryVal p.2 = p.2 := by
        intro p hp
        obtain ⟨c, hval⟩ := strFields_mem_val 0 s.data hp
        rw [hval]
        rfl
      simpa only [sortObject] using sortObject_vObj_of_fixed (strFields 0 s.data) hfix
    | vNum i => rfl
    | vBool b => rfl
    | vNull => rfl

/-- C8: canonicalization is idempotent: for every input tree `T`,
`sortObject (sortObject T) = sortObject T`. -/
theorem sortObject_idempotent (v : JsVal) : sortObject (sortObject v) = sortObject v :=
  sortObject_idem_aux (sizeOf v) v le_rfl

theorem objChainSorted_of_not_guard {x : JsVal} (hx : isObjNotArr x = false) :
    objChainSorted x = true := by
  cases x <;> first | rfl | simp [isObjNotArr] at hx

theorem objChainSorted_sortEntryVal {x : JsVal}
    (h : objChainSorted (sortObject x) = true) :
    objChainSorted (sortEntryVal x) = true := by
  unfold sortEntryVal
  cases hx : isObjNotArr x
  · simp only [Bool.false_eq_true, if_false]
    exact objChainSorted_of_not_guard hx
  · simp only [if_true]
    exact h

theorem sorted_keysAscending :
    ∀ l : List (String × JsVal), List.Sorted keyLe l →
      keysAscending (l.map Prod.fst) = true := by
  intro l
  induction l with
  | nil => intro _; rfl
  | cons p rest ih =>
    intro h
    rw [List.sorted_cons] at h
    obtain ⟨hp, hrest⟩ := h
    cases rest with
    | nil => rfl
    | cons q rest2 =>
      have h1 : keyLe p q := hp q (by simp)
      have h2 := ih hrest
      simp only [List.map_cons] at h2 ⊢
      simp only [keysAscending, Bool.and_eq_true]
      exact ⟨h1, h2⟩

theorem objChainSortedFields_of :
    ∀ l : List (String × JsVal), (∀ p ∈ l, objChainSorted p.2 = true) →
      objChainSortedFields l = true := by
  intro l
  induction l with
  | nil => intro _; rfl
  | cons p rest ih =>
    intro h
    cases p with
    | mk k x =>
      simp only [objChainSortedFields, Bool.and_eq_true]
      refine ⟨h (k, x) (by simp), ih ?_⟩
      intro q hq
      exact h q (by simp [hq])

theorem objChainSorted_sortObject_aux :
    ∀ n, ∀ v : JsVal, sizeOf v ≤ n → objChainSorted (sortObject v) = true := by
  intro n
  induction n with
  | zero =>
    intro v hv
    exact absurd hv (by cases v <;> simp)
  | succ n ih =>
    intro v hv
    have core : ∀ E : List (String × JsVal),
        (∀ p ∈ E, objChainSorted p.2 = true) →
        objChainSorted (.vObj (List.insertionSort keyLe E)) = true := by
      intro E hE
      simp only [objChainSorted, Bool.and_eq_true]
      constructor
      · exact sorted_keysAscending _ (List.sorted_insertionSort keyLe E)
      · exact objChainSortedFields_of _
          (fun p hp => hE p ((List.mem_insertionSort keyLe).1 hp))
    cases v with
    | vObj kvs =>
      simp only [sortObject]
      refine core (mapFields kvs) ?_
      intro p hp
      rw [mapFields_eq_map] at hp
      obtain ⟨q, hq, rfl⟩ := List.mem_map.1 hp
      have hsz : sizeOf q.2 ≤ n := by
        have := sizeOf_snd_lt_of_mem hq
        omega
      exact objChainSorted_sortEntryVal (ih q.2 hsz)
    | vArr xs =>
      simp only [sortObject]
      refine core (arrFields 0 xs) ?_
      intro p hp
      obtain ⟨x, hx, hval⟩ := arrFields_mem_val 0 xs hp
      have hsz : sizeOf x ≤ n := by
        have := sizeOf_elem_lt_of_mem hx
        omega
      rw [hval]
      exact objChainSorted_sortEntryVal (ih x hsz)
    | vStr s =>
      simp only [sortObject]
      refine core (strFields 0 s.data) ?_
      intro p hp
      obtain ⟨c, hval⟩ := strFields_mem_val 0 s.data hp
      rw [hval]
      rfl
    | vNum i => rfl
    | vBool b => rfl
    | vNull => rfl

/-- C1 (amended): for every input mapping, `sortObject` returns a mapping
whose fields are a permutation of the input fields with mapping and null
values recursively canonicalized (null becoming an empty mapping) and every
other value — scalars and arrays, including all array elements — kept
verbatim; every mapping reachable through chains of mapping values has its
keys in ascending lexicographic order, but mappings inside arrays are not
canonicalized and arrays are never reordered. -/
theorem sortObject_canonicalizes (kvs : List (String × JsVal)) :
    objChainSorted (sortObject (.vObj kvs)) = true
    ∧ (∃ l, sortObject (.vObj kvs) = .vObj l
        ∧ l.Perm (kvs.map fun p => (p.1, sortEntryVal p.2)))
    ∧ (∀ xs, sortEntryVal (.vArr xs) = .vArr xs)
    ∧ (∀ s, sortEntryVal (.vStr s) = .vStr s)
    ∧ (∀ i, sortEntryVal (.vNum i) = .vNum i)
    ∧ (∀ b, sortEntryVal (.vBool b) = .vBool b)
    ∧ sortEntryVal .vNull = .vObj [] := by
  refine ⟨objChainSorted_sortObject_aux (sizeOf (JsVal.vObj kvs)) _ le_rfl,
    ⟨List.insertionSort keyLe (mapFields kvs), rfl, ?_⟩,
    fun xs => rfl, fun s => rfl, fun i => rfl, fun b => rfl, rfl⟩
  rw [mapFields_eq_map]
  exact List.perm_insertionSort keyLe _

/-- C1 counterexample: the claim asserts every mapping at every nesting level
of the output has sorted keys and scalar content is preserved, but a mapping
inside an array is returned with its keys still unsorted, and a null field
value is replaced by an empty mapping. -/
theorem sortObject_not_deeply_canonical :
    deepSorted (sortObject nestedArrayTree) = false
    ∧ sortObject (.vObj [("n", .vNull)]) = .vObj [("n", .vObj [])] :=
  ⟨rfl, rfl⟩

/-- C9: the shape validator runs all five field checks independently; each
failing field contributes exactly one error keyed by that field, in check
order, and the result is empty exactly when all five checks pass. -/
theorem validateRequestFormat_spec (body : JsVal) :
    ((validateRequestFormat body).map ValidationError.key
      = requiredFields.filter (fieldFails body))
    ∧ (validateRequestFormat body = []
        ↔ ∀ f ∈ requiredFields, fieldFails body f = false)
    ∧ (∀ f ∈ requiredFields,
        (validateRequestFormat body).countP (fun e => e.key == f)
          = if fieldFails body f then 1 else 0) := by
  have key3 : ∀ f ∈ requiredFields,
      (validateRequestFormat body).countP (fun e => e.key == f)
        = if fieldFails body f then 1 else 0 := by
    intro f hf
    fin_cases hf <;>
    · cases h1 : isNullOrWhiteSpace (jsProp body "token") <;>
      cases h2 : isNullOrWhiteSpace (jsProp body "subject") <;>
      cases h3 : isNonEmptyArray (jsProp body "data") <;>
      cases h4 : isNullOrWhiteSpace (jsProp body "packedData") <;>
      cases h5 : isNullOrWhiteSpace (jsProp body "signature") <;>
      simp [validateRequestFormat, fieldFails, h1, h2, h3, h4, h5]
  refine ⟨?_, ?_, key3⟩
  · cases h1 : isNullOrWhiteSpace (jsProp body "token") <;>
    cases h2 : isNullOrWhiteSpace (jsProp body "subject") <;>
    cases h3 : isNonEmptyArray (jsProp body "data") <;>
    cases h4 : isNullOrWhiteSpace (jsProp body "packedData") <;>
    cases h5 : isNullOrWhiteSpace (jsProp body "signature") <;>
    simp [validateRequestFormat, fieldFails, requiredFields, h1, h2, h3, h4, h5]
  · cases h1 : isNullOrWhiteSpace (jsProp body "token") <;>
    cases h2 : isNullOrWhiteSpace (jsProp body "subject") <;>
    cases h3 : isNonEmptyArray (jsProp body "data") <;>
    cases h4 : isNullOrWhiteSpace (jsProp body "packedData") <;>
    cases h5 : isNullOrWhiteSpace (jsProp body "signature") <;>
    simp [validateRequestFormat, fieldFails, requiredFields, h1, h2, h3, h4, h5]

theorem subjectMismatchMessage_parts (shared recovered : String) :
    ∃ a b c, subjectMismatchMessage shared recovered
      = a ++ shared ++ b ++ recovered ++ c :=
  ⟨"The recovered subject address based on the \x27packedData\x27 and \x27signature\x27" ++
      " does not match the one that was shared." ++ "\nShared subject address: \x27",
    "\x27" ++ "\nRecovered subject address: \x27", "\x27",
    by simp [subjectMismatchMessage, String.append_assoc]⟩

theorem packedDataMismatchMessage_parts (shared recovered : String) :
    ∃ a b c, packedDataMismatchMessage shared recovered
      = a ++ shared ++ b ++ recovered ++ c :=
  ⟨"The recovered packed data hash computed by running \x27keccak256\x27 on an object" ++
      " containing the shared \x27data\x27 and \x27token\x27 does not match the \x27packedData\x27" ++
      " that was shared." ++ "\nShared packed data: \x27",
    "\x27" ++ "\nRecovered packed data: \x27", "\x27",
    by simp [packedDataMismatchMessage, String.append_assoc]⟩

/-- C2: the off-chain integrity validator attempts both checks even if one
fails: it yields the subject error exactly when the recovered signer differs
from the claimed subject and the packed-data error exactly when the recomputed
hash differs from the claimed one (0, 1, or 2 errors in total), and each
mismatch message interpolates both the claimed and the recovered value. -/
theorem validateBasicOffChainProperties_spec
    (recoverHashSigner : String → String → String) (keccak256 : String → String)
    (stringify : JsVal → String) (d : ResponseData) :
    (validateBasicOffChainProperties recoverHashSigner keccak256 stringify d
      = (if d.subject ≠ recoverHashSigner d.packedData d.signature then
          [⟨"subject", subjectMismatchMessage d.subject
            (recoverHashSigner d.packedData d.signature)⟩] else [])
        ++ (if d.packedData ≠ "0x" ++ keccak256 (stringify (packedInput d)) then
          [⟨"packedData", packedDataMismatchMessage d.packedData
            ("0x" ++ keccak256 (stringify (packedInput d)))⟩] else []))
    ∧ (validateBasicOffChainProperties recoverHashSigner keccak256 stringify d).length ≤ 2
    ∧ ((∃ e ∈ validateBasicOffChainProperties recoverHashSigner keccak256 stringify d,
          e.key = "subject")
        ↔ d.subject ≠ recoverHashSigner d.packedData d.signature)
    ∧ ((∃ e ∈ validateBasicOffChainProperties recoverHashSigner keccak256 stringify d,
          e.key = "packedData")
        ↔ d.packedData ≠ "0x" ++ keccak256 (stringify (packedInput d)))
    ∧ (∀ shared recovered, ∃ a b c,
        subjectMismatchMessage shared recovered = a ++ shared ++ b ++ recovered ++ c)
    ∧ (∀ shared recovered, ∃ a b c,
        packedDataMismatchMessage shared recovered = a ++ shared ++ b ++ recovered ++ c) := by
  refine ⟨?_, ?_, ?_, ?_, fun s r => subjectMismatchMessage_parts s r,
    fun s r => packedDataMismatchMessage_parts s r⟩ <;>
  · simp only [validateBasicOffChainProperties]
    split_ifs <;> simp_all

theorem foldl_append_eq_flatMap {α β : Type} (f : α → List β) :
    ∀ (l : List α) (acc : List β),
      l.foldl (fun errors x => errors ++ f x) acc = acc ++ l.flatMap f := by
  intro l
  induction l with
  | nil => intro acc; simp
  | cons x rest ih =>
    intro acc
    simp [List.foldl_cons, ih, List.append_assoc]

theorem validateOnChainProperties_eq_flatMap (subject : String)
    (dls : List TDecodedLogsAndData) :
    validateOnChainProperties subject dls = dls.flatMap (validateOnChainNode subject) := by
  simpa using foldl_append_eq_flatMap (validateOnChainNode subject) dls []

/-- C7: the on-chain cross-validator pairs every node with the logs fetched
for its own transaction, and any permutation of the (node, logs) pairs — any
fetch completion order — yields a permutation of the same validation errors
(the same multiset). -/
theorem validateOnChainProperties_perm_invariant (subject : String)
    (dls dls' : List TDecodedLogsAndData) (h : dls.Perm dls') :
    (validateOnChainProperties subject dls).Perm (validateOnChainProperties subject dls')
    ∧ validateOnChainProperties subject dls = dls.flatMap (validateOnChainNode subject) := by
  refine ⟨?_, validateOnChainProperties_eq_flatMap subject dls⟩
  rw [validateOnChainProperties_eq_flatMap, validateOnChainProperties_eq_flatMap]
  exact h.flatMap_right _

/-- C7 witness: two nodes listed in both orders produce permuted error lists. -/
theorem validateOnChainProperties_perm_invariant_witness :
    (([⟨⟨"L1", "A1", "T1"⟩, []⟩, ⟨⟨"L2", "A2", "T2"⟩, []⟩] : List TDecodedLogsAndData).Perm
      [⟨⟨"L2", "A2", "T2"⟩, []⟩, ⟨⟨"L1", "A1", "T1"⟩, []⟩])
    ∧ (validateOnChainProperties "S" [⟨⟨"L1", "A1", "T1"⟩, []⟩, ⟨⟨"L2", "A2", "T2"⟩, []⟩]).Perm
        (validateOnChainProperties "S" [⟨⟨"L2", "A2", "T2"⟩, []⟩, ⟨⟨"L1", "A1", "T1"⟩, []⟩]) :=
  ⟨by decide,
    (validateOnChainProperties_perm_invariant "S" _ _ (by decide)).1⟩

/-- C5: a node whose decoded logs contain no `TraitAttested` event carrying
the node's committed hash contributes exactly one error, keyed `TraitAttested`
and naming the missing hash, with no subject or attester comparison for that
node; the surrounding nodes are still validated and all errors are
concatenated in node order. -/
theorem validateOnChainProperties_missing_event (subject : String)
    (pre post : List TDecodedLogsAndData) (dl : TDecodedLogsAndData)
    (h : ∀ l ∈ dl.logs, l.name = "TraitAttested" →
      getDecodedLogValueByName l "dataHash" ≠ some dl.shareData.layer2Hash) :
    validateOnChainProperties subject (pre ++ dl :: post)
      = validateOnChainProperties subject pre
        ++ [⟨"TraitAttested", traitAttestedMissingMessage dl.shareData.layer2Hash⟩]
        ++ validateOnChainProperties subject post
    ∧ (∀ hsh : String, ∃ a b, traitAttestedMissingMessage hsh = a ++ hsh ++ b) := by
  constructor
  · have hfind : dl.logs.find? (traitAttestedMatch dl.shareData.layer2Hash) = none := by
      rw [List.find?_eq_none]
      intro l hl hmatch
      simp only [traitAttestedMatch, Bool.and_eq_true, beq_iff_eq] at hmatch
      exact h l hl hmatch.1 hmatch.2
    have hnode : validateOnChainNode subject dl
        = [⟨"TraitAttested", traitAttestedMissingMessage dl.shareData.layer2Hash⟩] := by
      simp [validateOnChainNode, hfind]
    simp [validateOnChainProperties_eq_flatMap, List.flatMap_append, List.flatMap_cons,
      hnode, List.append_assoc]
  · intro hsh
    exact ⟨"Unable to find \x27TraitAttested\x27 event logs with a" ++
        " \x27dataHash\x27 of \x27", "\x27.",
      by simp [traitAttestedMissingMessage, String.append_assoc]⟩

/-- C5 witness: one node with a log list that has no matching event yields
exactly the missing-event error. -/
theorem validateOnChainProperties_missing_event_witness :
    (∀ l ∈ ([⟨"Other", [("dataHash", "L1")]⟩] : List TDecodedLog),
      l.name = "TraitAttested" → getDecodedLogValueByName l "dataHash" ≠ some "L1")
    ∧ validateOnChainProperties "S" [⟨⟨"L1", "A1", "T1"⟩, [⟨"Other", [("dataHash", "L1")]⟩]⟩]
        = validateOnChainProperties "S" []
          ++ [⟨"TraitAttested", traitAttestedMissingMessage "L1"⟩]
          ++ validateOnChainProperties "S" [] :=
  ⟨by decide,
    (validateOnChainProperties_missing_event "S" [] []
      ⟨⟨"L1", "A1", "T1"⟩, [⟨"Other", [("dataHash", "L1")]⟩]⟩ (by decide)).1⟩

/-- C10: when several events match a node's committed hash, only the first
match in log order is compared: the node's errors are computed from that first
matching event, whatever matching events follow it. -/
theorem validateOnChainProperties_first_match (subject : String) (sd : IVerifiedData)
    (logs1 logs2 : List TDecodedLog) (lg : TDecodedLog)
    (h1 : ∀ l ∈ logs1, traitAttestedMatch sd.layer2Hash l = false)
    (h2 : traitAttestedMatch sd.layer2Hash lg = true) :
    validateOnChainProperties subject [⟨sd, logs1 ++ lg :: logs2⟩]
      = (if some subject ≠ getDecodedLogValueByName lg "subject" then
          [⟨"subject", onChainSubjectMessage subject (getDecodedLogValueByName lg "subject")⟩]
        else [])
        ++ (if some sd.attester ≠ getDecodedLogValueByName lg "attester" then
          [⟨"attester", onChainAttesterMessage sd.attester (getDecodedLogValueByName lg "attester")⟩]
        else []) := by
  have hfind : (logs1 ++ lg :: logs2).find? (traitAttestedMatch sd.layer2Hash) = some lg := by
    rw [List.find?_append, List.find?_eq_none.mpr (fun x hx => by simp [h1 x hx]),
      List.find?_cons_of_pos _ h2, Option.none_or]
  simp [validateOnChainProperties_eq_flatMap, validateOnChainNode, hfind]

/-- C10 witness: the first matching event has a wrong subject and a later
event matches perfectly; only the first is used, so a subject error remains. -/
theorem validateOnChainProperties_first_match_witness :
    traitAttestedMatch "L1"
      ⟨"TraitAttested", [("dataHash", "L1"), ("subject", "S"), ("attester", "A1")]⟩ = true
    ∧ validateOnChainProperties "S"
        [⟨⟨"L1", "A1", "T1"⟩,
          [⟨"TraitAttested", [("dataHash", "L1"), ("subject", "WRONG"), ("attester", "A1")]⟩,
            ⟨"TraitAttested", [("dataHash", "L1"), ("subject", "S"), ("attester", "A1")]⟩]⟩]
        = [⟨"subject", onChainSubjectMessage "S" (some "WRONG")⟩] := by
  refine ⟨by decide, ?_⟩
  have h := validateOnChainProperties_first_match "S" ⟨"L1", "A1", "T1"⟩ []
    [⟨"TraitAttested", [("dataHash", "L1"), ("subject", "S"), ("attester", "A1")]⟩]
    ⟨"TraitAttested", [("dataHash", "L1"), ("subject", "WRONG"), ("attester", "A1")]⟩
    (by decide) (by decide)
  exact h.trans rfl

theorem payload_all_iff (l : List (Option JsVal × List ValidationError)) :
    (l.all (fun p => p.2.length == 0) = true) ↔ ∀ p ∈ l, p.2 = [] := by
  simp [List.all_eq_true, List.length_eq_zero]

/-- C3: the orchestrator stops at the first stage with a non-empty error
sequence — shape, then off-chain integrity, then per-node payload, then
on-chain — rejecting with that stage's complete error sequence, and accepts
with the original token when every stage is clean. -/
theorem receiveHandler_stage_gating
    (recoverHashSigner : String → String → String) (keccak256 : String → String)
    (stringify : JsVal → String)
    (verifyOffChainDataIntegrity : JsVal → List ValidationError)
    (getDecodedTxEventLogs : String → Except Unit (List TDecodedLog)) (body : JsVal) :
    (validateRequestFormat body ≠ [] →
      receiveHandler recoverHashSigner keccak256 stringify verifyOffChainDataIntegrity
        getDecodedTxEventLogs body = .formatRejected (validateRequestFormat body))
    ∧ (validateRequestFormat body = [] →
        offChainStage recoverHashSigner keccak256 stringify body ≠ [] →
        receiveHandler recoverHashSigner keccak256 stringify verifyOffChainDataIntegrity
          getDecodedTxEventLogs body
          = .offChainRejected (offChainStage recoverHashSigner keccak256 stringify body))
    ∧ (validateRequestFormat body = [] →
        offChainStage recoverHashSigner keccak256 stringify body = [] →
        ¬ (∀ p ∈ payloadStage verifyOffChainDataIntegrity body, p.2 = []) →
        receiveHandler recoverHashSigner keccak256 stringify verifyOffChainDataIntegrity
          getDecodedTxEventLogs body
          = .payloadRejected (payloadStage verifyOffChainDataIntegrity body))
    ∧ (∀ dls, validateRequestFormat body = [] →
        offChainStage recoverHashSigner keccak256 stringify body = [] →
        (∀ p ∈ payloadStage verifyOffChainDataIntegrity body, p.2 = []) →
        collectLogs getDecodedTxEventLogs (canonicalData body) = .ok dls →
        validateOnChainProperties (canonicalResponse body).subject dls ≠ [] →
        receiveHandler recoverHashSigner keccak256 stringify verifyOffChainDataIntegrity
          getDecodedTxEventLogs body
          = .onChainRejected (validateOnChainProperties (canonicalResponse body).subject dls))
    ∧ (∀ dls, validateRequestFormat body = [] →
        offChainStage recoverHashSigner keccak256 stringify body = [] →
        (∀ p ∈ payloadStage verifyOffChainDataIntegrity body, p.2 = []) →
        collectLogs getDecodedTxEventLogs (canonicalData body) = .ok dls →
        validateOnChainProperties (canonicalResponse body).subject dls = [] →
        receiveHandler recoverHashSigner keccak256 stringify verifyOffChainDataIntegrity
          getDecodedTxEventLogs body = .accepted (jsProp body "token")) := by
  refine ⟨?_, ?_, ?_, ?_, ?_⟩
  · intro h1
    unfold receiveHandler
    rw [if_pos h1]
  · intro h1 h2
    unfold receiveHandler
    rw [if_neg (by simp [h1]), if_pos h2]
  · intro h1 h2 h3
    unfold receiveHandler
    rw [if_neg (by simp [h1]), if_neg (by simp [h2]),
      if_pos (fun hall => h3 ((payload_all_iff _).mp hall))]
  · intro dls h1 h2 h3 h4 h5
    unfold receiveHandler
    rw [if_neg (by simp [h1]), if_neg (by simp [h2]),
      if_neg (not_not_intro ((payload_all_iff _).mpr h3))]
    simp only [h4]
    rw [if_pos h5]
  · intro dls h1 h2 h3 h4 h5
    unfold receiveHandler
    rw [if_neg (by simp [h1]), if_neg (by simp [h2]),
      if_neg (not_not_intro ((payload_all_iff _).mpr h3))]
    simp only [h4]
    rw [if_neg (by simp [h5])]

/-- C3 witness: the stub environment and `witnessBody` pass all four stages
and the handler accepts with the original token. -/
theorem receiveHandler_stage_gating_witness :
    receiveHandler recoverStub keccakStub stringifyStub noPayloadErrors logsOkStub
      witnessBody = .accepted (jsProp witnessBody "token") :=
  (receiveHandler_stage_gating recoverStub keccakStub stringifyStub noPayloadErrors
      logsOkStub witnessBody).2.2.2.2
    [⟨⟨"L", "A", "T"⟩, [witnessLog]⟩] rfl rfl (by decide) rfl rfl

theorem collectLogs_error_iff (g : String → Except Unit (List TDecodedLog)) :
    ∀ ds : List JsVal, collectLogs g ds = .error ()
      ↔ ∃ d ∈ ds, g (strOrEmpty (jsProp d "tx")) = .error () := by
  intro ds
  induction ds with
  | nil => simp [collectLogs]
  | cons d rest ih =>
    simp only [collectLogs]
    cases hg : g (strOrEmpty (jsProp d "tx")) with
    | error e =>
      cases e
      simp [hg]
    | ok logs =>
      cases hc : collectLogs g rest with
      | error e =>
        cases e
        constructor
        · intro _
          obtain ⟨x, hx, hgx⟩ := ih.mp hc
          exact ⟨x, List.mem_cons.mpr (Or.inr hx), hgx⟩
        · intro _
          rfl
      | ok dls =>
        constructor
        · intro habs
          simp at habs
        · rintro ⟨x, hx, hgx⟩
          rcases List.mem_cons.mp hx with h | h
          · subst h
            rw [hg] at hgx
            simp at hgx
          · have h2 := ih.mpr ⟨x, h, hgx⟩
            rw [hc] at h2
            simp at h2

/-- C6: when the earlier stages pass and any single transaction-log lookup
fails, the run ends in an internal failure that is distinct from every
rejection verdict and carries no validation errors. -/
theorem receiveHandler_infra_failure
    (recoverHashSigner : String → String → String) (keccak256 : String → String)
    (stringify : JsVal → String)
    (verifyOffChainDataIntegrity : JsVal → List ValidationError)
    (getDecodedTxEventLogs : String → Except Unit (List TDecodedLog)) (body : JsVal)
    (h1 : validateRequestFormat body = [])
    (h2 : offChainStage recoverHashSigner keccak256 stringify body = [])
    (h3 : ∀ p ∈ payloadStage verifyOffChainDataIntegrity body, p.2 = [])
    (h4 : ∃ d ∈ canonicalData body,
      getDecodedTxEventLogs (strOrEmpty (jsProp d "tx")) = .error ()) :
    receiveHandler recoverHashSigner keccak256 stringify verifyOffChainDataIntegrity
      getDecodedTxEventLogs body = .internalFailure
    ∧ (∀ es, Verdict.internalFailure ≠ .formatRejected es
        ∧ Verdict.internalFailure ≠ .offChainRejected es
        ∧ Verdict.internalFailure ≠ .onChainRejected es)
    ∧ (∀ rs, Verdict.internalFailure ≠ .payloadRejected rs)
    ∧ (∀ t, Verdict.internalFailure ≠ .accepted t) := by
  have hcol : collectLogs getDecodedTxEventLogs (canonicalData body) = .error () :=
    (collectLogs_error_iff getDecodedTxEventLogs (canonicalData body)).mpr h4
  refine ⟨?_, fun es => ⟨by simp, by simp, by simp⟩, fun rs => by simp, fun t => by simp⟩
  unfold receiveHandler
  rw [if_neg (by simp [h1]), if_neg (by simp [h2]),
    if_neg (not_not_intro ((payload_all_iff _).mpr h3))]
  simp only [hcol]

/-- C6 witness: the all-pass stub environment with a failing log lookup ends
in an internal failure. -/
theorem receiveHandler_infra_failure_witness :
    validateRequestFormat witnessBody = []
    ∧ (∃ d ∈ canonicalData witnessBody,
        logsFailStub (strOrEmpty (jsProp d "tx")) = .error ())
    ∧ receiveHandler recoverStub keccakStub stringifyStub noPayloadErrors logsFailStub
        witnessBody = .internalFailure :=
  ⟨rfl, ⟨witnessNode, List.mem_singleton.mpr rfl, rfl⟩,
    (receiveHandler_infra_failure recoverStub keccakStub stringifyStub noPayloadErrors
      logsFailStub witnessBody rfl rfl (by decide)
      ⟨witnessNode, List.mem_singleton.mpr rfl, rfl⟩).1⟩

/-- C4 counterexample: under a signature-recovery primitive whose result
depends on the signed hash — as real recovery does — mutating one byte of
`packedData` of an otherwise-valid claim makes the off-chain stage yield two
errors, keyed `subject` and `packedData`, not exactly one. -/
theorem mutated_packedData_two_errors :
    validateBasicOffChainProperties recoverStub keccakStub stringifyStub validClaim = []
    ∧ (validateBasicOffChainProperties recoverStub keccakStub stringifyStub
        mutatedClaim).map ValidationError.key = ["subject", "packedData"]
    ∧ (validateBasicOffChainProperties recoverStub keccakStub stringifyStub
        mutatedClaim).length ≠ 1 :=
  ⟨rfl, rfl, by decide⟩

/-- C4 (amended): replacing the `packedData` of an otherwise-valid claim by
any different string makes the off-chain stage yield exactly one error keyed
`packedData`, plus an error keyed `subject` exactly when the signer recovered
from the mutated packed data no longer equals the claimed subject; the stage
output is non-empty, so the pipeline rejects at the off-chain stage with that
complete error list and never consults the log-fetch primitive (the verdict
is identical for every log-fetch function). -/
theorem mutated_packedData_errors
    (recoverHashSigner : String → String → String) (keccak256 : String → String)
    (stringify : JsVal → String) (d : ResponseData) (pd : String)
    (hvalid : validateBasicOffChainProperties recoverHashSigner keccak256 stringify d = [])
    (hne : pd ≠ d.packedData) :
    ((validateBasicOffChainProperties recoverHashSigner keccak256 stringify
        { d with packedData := pd }).countP (fun e => e.key == "packedData") = 1)
    ∧ ((validateBasicOffChainProperties recoverHashSigner keccak256 stringify
        { d with packedData := pd }).countP (fun e => e.key == "subject")
        = if d.subject = recoverHashSigner pd d.signature then 0 else 1)
    ∧ validateBasicOffChainProperties recoverHashSigner keccak256 stringify
        { d with packedData := pd } ≠ []
    ∧ (∀ (verifyOffChainDataIntegrity : JsVal → List ValidationError)
        (g g' : String → Except Unit (List TDecodedLog)) (body : JsVal),
        validateRequestFormat body = [] →
        offChainStage recoverHashSigner keccak256 stringify body ≠ [] →
        receiveHandler recoverHashSigner keccak256 stringify verifyOffChainDataIntegrity
          g body = .offChainRejected (offChainStage recoverHashSigner keccak256 stringify body)
        ∧ receiveHandler recoverHashSigner keccak256 stringify verifyOffChainDataIntegrity
            g body
          = receiveHandler recoverHashSigner keccak256 stringify verifyOffChainDataIntegrity
            g' body) := by
  have hpd : d.packedData = "0x" ++ keccak256 (stringify (packedInput d)) := by
    by_contra hcon
    simp only [validateBasicOffChainProperties] at hvalid
    split_ifs at hvalid <;> simp_all
  have hinput : packedInput { d with packedData := pd } = packedInput d := rfl
  have hcond : ({ d with packedData := pd } : ResponseData).packedData
      ≠ "0x" ++ keccak256 (stringify (packedInput { d with packedData := pd })) := by
    show pd ≠ _
    rw [hinput, ← hpd]
    exact hne
  refine ⟨?_, ?_, ?_, ?_⟩
  · simp only [validateBasicOffChainProperties, if_pos hcond]
    split_ifs <;> simp
  · simp only [validateBasicOffChainProperties, if_pos hcond]
    by_cases hsub : d.subject = recoverHashSigner pd d.signature
    · rw [if_neg (show ¬ (({ d with packedData := pd } : ResponseData).subject
        ≠ recoverHashSigner pd d.signature) from not_not_intro hsub), if_pos hsub]
      simp
    · rw [if_pos (show ({ d with packedData := pd } : ResponseData).subject
        ≠ recoverHashSigner pd d.signature from hsub), if_neg hsub]
      simp
  · simp only [validateBasicOffChainProperties, if_pos hcond]
    split_ifs <;> simp
  · intro vp g g' body h1 h2
    constructor
    · unfold receiveHandler
      rw [if_neg (by simp [h1]), if_pos h2]
    · unfold receiveHandler
      rw [if_neg (by simp [h1]), if_pos h2, if_neg (by simp [h1]), if_pos h2]

/-- C4 witness: the concrete mutation from `validClaim` to `mutatedClaim`
instantiates the amended statement. -/
theorem mutated_packedData_errors_witness :
    validateBasicOffChainProperties recoverStub keccakStub stringifyStub validClaim = []
    ∧ ("0xab" : String) ≠ validClaim.packedData
    ∧ (validateBasicOffChainProperties recoverStub keccakStub stringifyStub
        { validClaim with packedData := "0xab" }).countP
          (fun e => e.key == "packedData") = 1 :=
  ⟨rfl, by decide,
    (mutated_packedData_errors recoverStub keccakStub stringifyStub validClaim "0xab"
      rfl (by decide)).1⟩
